import Mathlib

/-!
# Verification of `ch20-web-server` — `threadpool/src/lib.rs`

A shallow embedding of the fixed-size thread pool in `src/threadpool/src/lib.rs`
together with proofs of the specified properties.

Modelling conventions:

* A `Job` is identified by a natural number; its only observable effect in the
  model is being recorded (exactly once) when a worker finishes running it.
* `mpsc::channel` queue contents are a `List Nat` (FIFO); the `Sender` being
  alive is `Threadpool.sender = some ()`, the channel being closed corresponds
  to the sender having been dropped.
* The `Arc<Mutex<Receiver<Job>>>` handle is identified by a numeric handle id
  (`reciever` — the source's spelling); `Arc::clone` shares the same id.
* A spawned `JoinHandle<()>` is `some ()` in `Worker.thread`; `Option.take`
  and joining set it to `none`.
* A Rust panic (`unwrap` on `None`/`Err`, or a panicking job) is modelled as
  the `none` branch of an `Option` result, or a `false` "completed normally"
  flag: no ordinary error value is returned on those paths.
-/

/-- `struct Worker { id: usize, thread: Option<JoinHandle<()>> }`, lib.rs
lines 74–77, together with the receiver handle the spawned closure captures
(lib.rs line 80: `reciever: Arc<Mutex<mpsc::Receiver<Job>>>`). -/
structure Worker where
  id : Nat
  reciever : Nat
  thread : Option Unit
deriving DecidableEq, Repr

/-- `struct Threadpool { workers: Vec<Worker>, sender: Option<mpsc::Sender<Job>> }`,
lib.rs lines 7–10. -/
structure Threadpool where
  workers : List Worker
  sender : Option Unit
deriving DecidableEq, Repr

/-- `#[derive(Debug, Clone, PartialEq)] pub struct PoolCreationError;`,
lib.rs lines 106–107: a unit struct. -/
structure PoolCreationError
deriving DecidableEq, Repr

/-- The `PartialEq` implementation derived for the unit struct
`PoolCreationError`: comparing two values with no fields always yields
`true`. -/
def PoolCreationError.peEq (_e₁ _e₂ : PoolCreationError) : Bool :=
  true

/-- Observable side effects of `Threadpool::build`: creating the mpsc
channel (lib.rs line 26) and spawning a worker thread
(`thread::spawn` inside `Worker::new`, lib.rs line 81). -/
inductive BuildEffect where
  | createQueue
  | spawnThread (id : Nat)
deriving DecidableEq, Repr

/-- `Worker::new(id, reciever)`, lib.rs lines 80–101: spawns the worker
thread (the `BuildEffect.spawnThread id` effect) and returns the `Worker`
with its `JoinHandle` present. The worker-loop behaviour of the spawned
closure is modelled separately by the `Step` relation below. -/
def Worker.new (id : Nat) (reciever : Nat) : Worker × BuildEffect :=
  ({ id := id, reciever := reciever, thread := some () }, .spawnThread id)

/-- `Threadpool::build(size)`, lib.rs lines 22–40, with its side effects
made explicit. If `size == 0` it returns `Err(PoolCreationError)` having
performed no effect; otherwise it creates one channel, wraps the receiver
in one shared `Arc<Mutex<_>>` handle (handle id `0`), spawns one worker per
`id in 0..size` each cloning that same handle, and returns the pool owning
the sender. -/
def buildE (size : Nat) : Except PoolCreationError Threadpool × List BuildEffect :=
  if size = 0 then
    (.error ⟨⟩, [])
  else
    let reciever : Nat := 0
    let built := (List.range size).map (fun id => Worker.new id reciever)
    (.ok { workers := built.map (·.1), sender := some () },
      BuildEffect.createQueue :: built.map (·.2))

/-- The `Result` value of `Threadpool::build(size)` (lib.rs lines 22–40),
forgetting the effect trace. -/
def Threadpool.build (size : Nat) : Except PoolCreationError Threadpool :=
  (buildE size).1

/-- `Threadpool::execute(&self, f)`, lib.rs lines 50–57:
`self.sender.as_ref().unwrap().send(job).unwrap()`.
`recvAlive` tells whether the receiving end of the channel still exists
(`send` returns `Err` otherwise and the second `unwrap` panics).
The result pairs the pool as left by the `&self` call with the new queue
contents: `none` models a panic (the call aborts, nothing enqueued,
no error value is returned to the caller); `some q` models the boxed job
appended to the channel's FIFO buffer. -/
def Threadpool.execute (p : Threadpool) (recvAlive : Bool) (queue : List Nat)
    (f : Nat) : Threadpool × Option (List Nat) :=
  let job := f
  match p.sender with
  | none => (p, none)
  | some _ => if recvAlive then (p, some (queue ++ [job])) else (p, none)

/-- Observable events of `Drop for Threadpool` (lib.rs lines 60–72):
dropping the taken sender (line 62), the shutdown `println!` (line 65) and
joining a worker's thread (line 68). -/
inductive DropEvent where
  | dropSender
  | printShutdown (id : Nat)
  | joinWorker (id : Nat)
deriving DecidableEq, Repr

/-- The per-worker loop of `Drop for Threadpool` (lib.rs lines 64–70):
for each worker in order, print, then `if let Some(thread) = worker.thread.take()`
join it. `panicked id` tells whether worker `id`'s thread terminated by
panicking; joining such a thread makes `thread.join().unwrap()` itself
panic (line 68), which stops the drop — the "completed normally" flag of
the result is then `false` and the remaining workers are not processed. -/
def dropWorkers (ws : List Worker) (panicked : Nat → Bool) :
    List Worker × List DropEvent × Bool :=
  match ws with
  | [] => ([], [], true)
  | w :: rest =>
    match w.thread with
    | none =>
      let r := dropWorkers rest panicked
      (w :: r.1, .printShutdown w.id :: r.2.1, r.2.2)
    | some _ =>
      if panicked w.id then
        ({ w with thread := none } :: rest,
          [.printShutdown w.id, .joinWorker w.id], false)
      else
        let r := dropWorkers rest panicked
        ({ w with thread := none } :: r.1,
          .printShutdown w.id :: .joinWorker w.id :: r.2.1, r.2.2)

/-- `Drop for Threadpool` (lib.rs lines 60–72): first
`drop(self.sender.take())` — the sole closing signal — then the join loop
over the workers in spawn order. Returns the pool state left behind, the
event trace, and whether the drop completed without panicking. -/
def Threadpool.dropRun (p : Threadpool) (panicked : Nat → Bool) :
    Threadpool × List DropEvent × Bool :=
  let (ws, evs, ok) := dropWorkers p.workers panicked
  ({ workers := ws, sender := none }, DropEvent.dropSender :: evs, ok)

/-- Status of a spawned worker thread inside the loop of lib.rs lines 81–95:
before attempting `reciever.lock()` (`idle`), holding the mutex guard while
blocked in `recv()` (`locked`), executing a dequeued job with the guard
already dropped (`running j`, the temporary `MutexGuard` of line 82 dies at
the end of that statement), or having left the loop via the `Err` arm
(`stopped`). -/
inductive WStatus where
  | idle
  | locked
  | running (j : Nat)
  | stopped
deriving DecidableEq, Repr

/-- Global state of a running pool: the channel's FIFO buffer, whether the
sender has been dropped (channel closed), the status of each worker thread
(position = worker id), the jobs whose execution has completed, and the
ghost record of all jobs ever submitted through `execute`. -/
structure SysState where
  queue : List Nat
  closed : Bool
  workers : List WStatus
  executed : List Nat
  submitted : List Nat
deriving DecidableEq, Repr

/-- Interleaving semantics of the pool: one transition of the submitter
(`Threadpool::execute`, lib.rs line 56), of shutdown step 1
(`drop(self.sender.take())`, lib.rs line 62), or of one worker's loop
(lib.rs lines 81–95). The mutex on the shared receiver admits at most one
holder (`acquire` requires no worker to be `locked`); `recv()` succeeds
while the buffer is non-empty, returns `Err` once the buffer is empty and
the sender dropped, and blocks (no transition) while the buffer is empty
and the sender alive. -/
inductive Step : SysState → SysState → Prop where
  | submit (s : SysState) (j : Nat) :
      s.closed = false →
      Step s { s with queue := s.queue ++ [j], submitted := s.submitted ++ [j] }
  | close (s : SysState) :
      s.closed = false →
      Step s { s with closed := true }
  | acquire (s : SysState) (i : Nat) :
      s.workers[i]? = some .idle →
      (∀ w ∈ s.workers, w ≠ WStatus.locked) →
      Step s { s with workers := s.workers.set i .locked }
  | dequeue (s : SysState) (i : Nat) (j : Nat) (rest : List Nat) :
      s.workers[i]? = some .locked →
      s.queue = j :: rest →
      Step s { s with queue := rest, workers := s.workers.set i (.running j) }
  | recvErr (s : SysState) (i : Nat) :
      s.workers[i]? = some .locked →
      s.queue = [] →
      s.closed = true →
      Step s { s with workers := s.workers.set i .stopped }
  | finish (s : SysState) (i : Nat) (j : Nat) :
      s.workers[i]? = some (.running j) →
      Step s { s with workers := s.workers.set i .idle,
                      executed := s.executed ++ [j] }

/-- `Step` extended with abnormal job termination: a job may panic while
running (lib.rs line 88 — nothing in the loop catches it), which kills only
that worker's thread. The panicking job's effect is never recorded. -/
inductive StepP : SysState → SysState → Prop where
  | normal {s t : SysState} : Step s t → StepP s t
  | panicked (s : SysState) (i : Nat) (j : Nat) :
      s.workers[i]? = some (.running j) →
      StepP s { s with workers := s.workers.set i .stopped }

/-- Reachability under the interleaving semantics (no job panics). -/
def Reach : SysState → SysState → Prop :=
  Relation.ReflTransGen Step

/-- The state right after `Threadpool::build(size)` succeeds: empty channel,
sender alive, `size` idle workers, nothing executed or submitted. -/
def initState (size : Nat) : SysState :=
  { queue := [], closed := false, workers := List.replicate size .idle,
    executed := [], submitted := [] }

/-- The job a worker thread is currently executing, if any. -/
def wjob : WStatus → Option Nat
  | .running j => some j
  | _ => none

/-- The jobs currently being executed by some worker. -/
def runningJobs (ws : List WStatus) : List Nat :=
  ws.filterMap wjob

/-- C2: `build(0)` returns `Err(PoolCreationError)` and performs no side
effect — the effect trace is empty: no channel (queue) is created and no
worker thread is spawned (lib.rs lines 22–24). -/
theorem build_zero_fails_without_effects :
    buildE 0 = (Except.error PoolCreationError.mk, []) := by
  rfl

/-- C3: for every `size ≥ 1`, `build(size)` succeeds with a pool that owns
the producer handle (`sender = some ()`), has exactly `size` workers whose
identifiers are exactly `0, 1, …, size-1` in order, and whose workers all
share the one consumer handle created by the single `mpsc::channel` call
(lib.rs lines 22–40). -/
theorem build_pos_succeeds (size : Nat) (h : 1 ≤ size) :
    ∃ p : Threadpool,
      Threadpool.build size = .ok p ∧
      p.workers.length = size ∧
      p.workers.map Worker.id = List.range size ∧
      (∀ w ∈ p.workers, w.reciever = 0) ∧
      p.sender = some () := by
  refine ⟨{ workers := (List.range size).map (fun id => ⟨id, 0, some ()⟩),
            sender := some () }, ?_, ?_, ?_, ?_, rfl⟩
  · have hz : ¬ size = 0 := by omega
    simp [Threadpool.build, buildE, hz, Worker.new]
  · simp
  · simp [Function.comp_def]
  · intro w hw
    simp only [List.mem_map] at hw
    obtain ⟨i, _, rfl⟩ := hw
    rfl

/-- Witness for C3 at `size = 3`. -/
theorem build_pos_succeeds_witness :
    1 ≤ 3 ∧
    ∃ p : Threadpool,
      Threadpool.build 3 = .ok p ∧
      p.workers.length = 3 ∧
      p.workers.map Worker.id = List.range 3 ∧
      (∀ w ∈ p.workers, w.reciever = 0) ∧
      p.sender = some () :=
  ⟨by decide, build_pos_succeeds 3 (by decide)⟩

/-- C9: any two `PoolCreationError` values compare equal under the derived
`PartialEq` (and are in fact the same value); in particular the errors of
two separate failed builds, e.g. two calls of `build(0)`, compare equal
(lib.rs lines 106–107). -/
theorem poolCreationError_values_all_equal (e₁ e₂ : PoolCreationError) :
    PoolCreationError.peEq e₁ e₂ = true ∧ e₁ = e₂ ∧
      Threadpool.build 0 = .error e₁ ∧ Threadpool.build 0 = .error e₂ :=
  ⟨rfl, rfl, rfl, rfl⟩

/-- C6: calling `execute` when the producer handle is absent
(`self.sender.as_ref().unwrap()` on `None`, lib.rs line 56) or when the
channel is unusable because every receiver is gone (`send(job).unwrap()` on
`Err`) panics — modelled by the `none` result: the process aborts, and no
recoverable error value is returned to the caller. -/
theorem execute_after_shutdown_panics (p : Threadpool) (recvAlive : Bool)
    (queue : List Nat) (f : Nat)
    (h : p.sender = none ∨ recvAlive = false) :
    (p.execute recvAlive queue f).2 = none := by
  rcases h with h | h
  · simp [Threadpool.execute, h]
  · cases hs : p.sender <;> simp [Threadpool.execute, h, hs]

/-- Witness for C6: a pool whose sender was already taken. -/
theorem execute_after_shutdown_panics_witness :
    ((Threadpool.mk [] none).sender = none ∨ true = false) ∧
    ((Threadpool.mk [] none).execute true [] 7).2 = none :=
  ⟨Or.inl rfl, execute_after_shutdown_panics (Threadpool.mk [] none) true [] 7
    (Or.inl rfl)⟩

/-- C10: on a live pool (producer handle present), `execute` takes `&self`
and only boxes the job and sends it through the existing sender: the pool's
own state is unchanged — same workers, producer still present — and on a
live channel the job is appended to the queue (lib.rs lines 50–57). -/
theorem execute_leaves_pool_unchanged (p : Threadpool) (recvAlive : Bool)
    (queue : List Nat) (f : Nat) (h : p.sender = some ()) :
    (p.execute recvAlive queue f).1 = p ∧
    (p.execute recvAlive queue f).1.workers = p.workers ∧
    (p.execute recvAlive queue f).1.sender = some () ∧
    (recvAlive = true → (p.execute recvAlive queue f).2 = some (queue ++ [f])) := by
  cases recvAlive <;> simp [Threadpool.execute, h]

/-- Witness for C10 on a concrete one-worker pool. -/
theorem execute_leaves_pool_unchanged_witness :
    (Threadpool.mk [⟨0, 0, some ()⟩] (some ())).sender = some () ∧
    ((Threadpool.mk [⟨0, 0, some ()⟩] (some ())).execute true [1] 2).1 =
      Threadpool.mk [⟨0, 0, some ()⟩] (some ()) ∧
    ((Threadpool.mk [⟨0, 0, some ()⟩] (some ())).execute true [1] 2).2 =
      some ([1] ++ [2]) :=
  ⟨rfl,
    (execute_leaves_pool_unchanged (Threadpool.mk [⟨0, 0, some ()⟩] (some ()))
      true [1] 2 rfl).1,
    (execute_leaves_pool_unchanged (Threadpool.mk [⟨0, 0, some ()⟩] (some ()))
      true [1] 2 rfl).2.2.2 rfl⟩

/-- The worker join loop never emits the sender-drop event: its events are
only `printShutdown` and `joinWorker`. -/
theorem dropWorkers_no_dropSender (ws : List Worker) (pan : Nat → Bool) :
    DropEvent.dropSender ∉ (dropWorkers ws pan).2.1 := by
  induction ws with
  | nil => simp [dropWorkers]
  | cons w rest ih =>
    simp only [dropWorkers]
    cases hw : w.thread with
    | none => simpa using ih
    | some u =>
      by_cases hp : pan w.id = true
      · simp [hp]
      · simp only [Bool.not_eq_true] at hp
        simpa [hp] using ih

/-- C4: in the event trace of `Drop for Threadpool`, the taken producer
handle is dropped first — before any worker is joined — and that drop is
the sole closing signal: the trace starts with `dropSender` and contains no
second occurrence of it (lib.rs lines 61–70). -/
theorem drop_sender_dropped_before_joins (p : Threadpool) (pan : Nat → Bool) :
    ∃ tl, (p.dropRun pan).2.1 = DropEvent.dropSender :: tl ∧
      DropEvent.dropSender ∉ tl :=
  ⟨(dropWorkers p.workers pan).2.1, rfl, dropWorkers_no_dropSender p.workers pan⟩

/-- If the join loop completes without a panic, every processed worker's
thread handle has been taken (`Option.take`) and is absent afterwards. -/
theorem dropWorkers_ok_threads_absent (ws : List Worker) (pan : Nat → Bool)
    (h : (dropWorkers ws pan).2.2 = true) :
    ∀ w ∈ (dropWorkers ws pan).1, w.thread = none := by
  induction ws with
  | nil => simp [dropWorkers]
  | cons w rest ih =>
    simp only [dropWorkers] at h ⊢
    cases hw : w.thread with
    | none =>
      simp only [hw] at h ⊢
      intro x hx
      rcases List.mem_cons.mp hx with rfl | hx
      · exact hw
      · exact ih h x hx
    | some u =>
      by_cases hp : pan w.id = true
      · simp [hw, hp] at h
      · simp only [Bool.not_eq_true] at hp
        simp only [hw, hp] at h ⊢
        simp only [Bool.false_eq_true, if_false] at h ⊢
        intro x hx
        rcases List.mem_cons.mp hx with rfl | hx
        · rfl
        · exact ih h x hx

/-- If every worker's thread handle is already absent, the join loop
performs no join: `if let Some(thread) = worker.thread.take()` always takes
the `None` branch. -/
theorem dropWorkers_absent_no_join (ws : List Worker) (pan : Nat → Bool)
    (h : ∀ w ∈ ws, w.thread = none) :
    ∀ e ∈ (dropWorkers ws pan).2.1, ∀ id, e ≠ DropEvent.joinWorker id := by
  induction ws with
  | nil => simp [dropWorkers]
  | cons w rest ih =>
    have hw : w.thread = none := h w (List.mem_cons_self w rest)
    simp only [dropWorkers, hw]
    intro e he id
    rcases List.mem_cons.mp he with rfl | he
    · simp
    · exact ih (fun x hx => h x (List.mem_cons_of_mem w hx)) e he id

/-- C8: each worker's thread handle is joined at most once. After a drop
that completes, every worker's optional handle has been taken and is
absent, so a second teardown pass over the same workers emits no join
event at all (lib.rs lines 64–70, 74–77). -/
theorem workers_joined_at_most_once (p : Threadpool) (pan pan₂ : Nat → Bool)
    (h : (p.dropRun pan).2.2 = true) :
    (∀ w ∈ (p.dropRun pan).1.workers, w.thread = none) ∧
    (∀ e ∈ ((p.dropRun pan).1.dropRun pan₂).2.1,
      ∀ id, e ≠ DropEvent.joinWorker id) := by
  have h1 : ∀ w ∈ (p.dropRun pan).1.workers, w.thread = none :=
    dropWorkers_ok_threads_absent p.workers pan h
  refine ⟨h1, ?_⟩
  intro e he id
  rcases List.mem_cons.mp he with rfl | he
  · simp
  · exact dropWorkers_absent_no_join _ pan₂ h1 e he id

/-- Witness for C8 on a concrete two-worker pool with no panicking jobs. -/
theorem workers_joined_at_most_once_witness :
    ((Threadpool.mk [⟨0, 0, some ()⟩, ⟨1, 0, some ()⟩] (some ())).dropRun
        (fun _ => false)).2.2 = true ∧
    ((∀ w ∈ ((Threadpool.mk [⟨0, 0, some ()⟩, ⟨1, 0, some ()⟩]
          (some ())).dropRun (fun _ => false)).1.workers, w.thread = none) ∧
      (∀ e ∈ (((Threadpool.mk [⟨0, 0, some ()⟩, ⟨1, 0, some ()⟩]
          (some ())).dropRun (fun _ => false)).1.dropRun (fun _ => false)).2.1,
        ∀ id, e ≠ DropEvent.joinWorker id)) :=
  ⟨rfl, workers_joined_at_most_once
    (Threadpool.mk [⟨0, 0, some ()⟩, ⟨1, 0, some ()⟩] (some ()))
    (fun _ => false) (fun _ => false) rfl⟩

/-- If some worker still holding its thread handle panicked, the join loop
of `Drop` reaches `thread.join().unwrap()` on an `Err` and panics: it does
not complete normally. -/
theorem dropWorkers_panicked_not_ok (ws : List Worker) (pan : Nat → Bool)
    (h : ∃ w ∈ ws, w.thread = some () ∧ pan w.id = true) :
    (dropWorkers ws pan).2.2 = false := by
  induction ws with
  | nil => simp at h
  | cons w rest ih =>
    obtain ⟨x, hx, hxt, hxp⟩ := h
    simp only [dropWorkers]
    cases hw : w.thread with
    | none =>
      rcases List.mem_cons.mp hx with rfl | hx
      · rw [hw] at hxt; exact absurd hxt (by simp)
      · simpa using ih ⟨x, hx, hxt, hxp⟩
    | some u =>
      by_cases hp : pan w.id = true
      · simp [hp]
      · rcases List.mem_cons.mp hx with rfl | hx
        · exact absurd hxp hp
        · simp only [Bool.not_eq_true] at hp
          simpa [hp] using ih ⟨x, hx, hxt, hxp⟩

/-- C5 counterexample: the claim "Pool destruction still completes without
surfacing any error" fails. Concrete input: the pool built by `build(1)`,
whose single worker's job panicked (`panicked = fun _ => true`). The drop's
`thread.join().unwrap()` (lib.rs line 68) receives the `Err` that `join`
returns for a panicked thread and itself panics: the completed-normally
flag is `false`, not `true`. -/
theorem job_panic_surfaces_in_drop :
    ∃ p, Threadpool.build 1 = .ok p ∧
      ¬ ((p.dropRun (fun _ => true)).2.2 = true) :=
  ⟨Threadpool.mk [⟨0, 0, some ()⟩] (some ()), rfl, by decide⟩

/-- C5 (amended): a job's panic is not caught by the worker loop and kills
only that worker's thread — the queue, the executed record, the submitted
record, the closed flag and every other worker are untouched, and nothing
is propagated to the submitter; however, if Pool destruction later joins a
worker whose thread panicked, `thread.join().unwrap()` panics in `Drop`
itself, so destruction does not complete silently (lib.rs lines 67–69,
84–94). -/
theorem job_panic_kills_only_its_worker :
    (∀ (s : SysState) (i j : Nat), s.workers[i]? = some (WStatus.running j) →
      StepP s { s with workers := s.workers.set i .stopped } ∧
      ({ s with workers := s.workers.set i .stopped } : SysState).queue = s.queue ∧
      ({ s with workers := s.workers.set i .stopped } : SysState).executed = s.executed ∧
      ({ s with workers := s.workers.set i .stopped } : SysState).submitted = s.submitted ∧
      ({ s with workers := s.workers.set i .stopped } : SysState).closed = s.closed ∧
      (s.workers.set i .stopped)[i]? = some WStatus.stopped ∧
      (∀ k, k ≠ i → (s.workers.set i .stopped)[k]? = s.workers[k]?)) ∧
    (∀ (p : Threadpool) (pan : Nat → Bool),
      (∃ w ∈ p.workers, w.thread = some () ∧ pan w.id = true) →
      (p.dropRun pan).2.2 = false) := by
  constructor
  · intro s i j h
    have hlt : i < s.workers.length := by
      rcases List.getElem?_eq_some_iff.mp h with ⟨hl, _⟩
      exact hl
    refine ⟨StepP.panicked s i j h, rfl, rfl, rfl, rfl, ?_, ?_⟩
    · exact List.getElem?_set_self hlt
    · intro k hk
      exact List.getElem?_set_ne (fun hik => hk hik.symm)
  · intro p pan h
    exact dropWorkers_panicked_not_ok p.workers pan h

/-- Witness for the amended C5: a one-worker system whose running job
panics, and the pool of `build(1)` dropped after its worker panicked. -/
theorem job_panic_kills_only_its_worker_witness :
    StepP (SysState.mk [] false [WStatus.running 5] [] [5])
      { SysState.mk [] false [WStatus.running 5] [] [5] with
        workers := [WStatus.running 5].set 0 .stopped } ∧
    ((Threadpool.mk [⟨0, 0, some ()⟩] (some ())).dropRun (fun _ => true)).2.2
      = false :=
  ⟨(job_panic_kills_only_its_worker.1
      (SysState.mk [] false [WStatus.running 5] [] [5]) 0 5 rfl).1,
    job_panic_kills_only_its_worker.2
      (Threadpool.mk [⟨0, 0, some ()⟩] (some ())) (fun _ => true)
      ⟨⟨0, 0, some ()⟩, by simp, rfl, rfl⟩⟩

/-- `filterMap` over a cons, phrased with `Option.toList`. -/
theorem filterMap_cons_toList {α β : Type} (f : α → Option β) (x : α)
    (t : List α) :
    (x :: t).filterMap f = (f x).toList ++ t.filterMap f := by
  cases h : f x <;> simp [List.filterMap_cons, h]

/-- Replacing the element at a valid index changes a `filterMap` only by
swapping that element's contribution, as multisets:
`filterMap (l.set i b) + f a = filterMap l + f b` when `l[i]? = some a`. -/
theorem filterMap_set_msum {α β : Type} (f : α → Option β) (l : List α)
    (i : Nat) (a b : α) (h : l[i]? = some a) :
    (↑((l.set i b).filterMap f) + ↑((f a).toList) : Multiset β) =
      ↑(l.filterMap f) + ↑((f b).toList) := by
  induction l generalizing i with
  | nil => simp at h
  | cons x t ih =>
    cases i with
    | zero =>
      have hx : x = a := by simpa using h
      subst hx
      simp only [List.set_cons_zero, filterMap_cons_toList, ← Multiset.coe_add]
      abel
    | succ n =>
      have ht : t[n]? = some a := by simpa using h
      have hrec := ih n ht
      simp only [List.set_cons_succ, filterMap_cons_toList,
        ← Multiset.coe_add] at hrec ⊢
      rw [add_assoc, add_assoc, hrec]

/-- Multiset form of `filterMap_set_msum` for the running-job view of the
workers. -/
theorem runningJobs_set (ws : List WStatus) (i : Nat) (a b : WStatus)
    (h : ws[i]? = some a) :
    (↑(runningJobs (ws.set i b)) + ↑((wjob a).toList) : Multiset Nat) =
      ↑(runningJobs ws) + ↑((wjob b).toList) :=
  filterMap_set_msum wjob ws i a b h

/-- The invariant maintained by every `Step`:
1. multiset accounting — completed jobs, jobs being executed, and buffered
   jobs together are exactly the submitted jobs;
2. while the sender is alive no worker has stopped (a worker stops only on
   `recv()` returning `Err`, which needs the sender dropped);
3. the worker list is non-empty (pools are built with `size ≥ 1`);
4. if every worker has stopped, the buffer is empty (the last worker to
   stop saw an empty, closed channel, and a closed channel accepts no new
   job). -/
def PoolInv (s : SysState) : Prop :=
  ((s.executed : Multiset Nat) + ↑(runningJobs s.workers) + ↑s.queue
      = ↑s.submitted) ∧
  (s.closed = false →
    ∀ (i : Nat) (w : WStatus), s.workers[i]? = some w → w ≠ WStatus.stopped) ∧
  s.workers ≠ [] ∧
  ((∀ (i : Nat) (w : WStatus), s.workers[i]? = some w → w = WStatus.stopped) →
    s.queue = [])

/-- A non-empty worker list has a first worker. -/
theorem exists_first_worker (l : List WStatus) (h : l ≠ []) :
    ∃ w, l[0]? = some w := by
  cases l with
  | nil => exact absurd rfl h
  | cons x t => exact ⟨x, by simp⟩

/-- Every transition of the pool semantics preserves `PoolInv`. -/
theorem step_preserves_inv {s t : SysState} (hst : Step s t)
    (hinv : PoolInv s) : PoolInv t := by
  obtain ⟨h1, h2, h3, h4⟩ := hinv
  cases hst with
  | submit j hc =>
    refine ⟨?_, ?_, h3, ?_⟩
    · show (↑s.executed + ↑(runningJobs s.workers) + ↑(s.queue ++ [j])
          : Multiset Nat) = ↑(s.submitted ++ [j])
      simp only [← Multiset.coe_add]
      rw [← h1]
      abel
    · intro hc' i w hw
      exact h2 hc' i w hw
    · intro hall
      obtain ⟨w, hw⟩ := exists_first_worker s.workers h3
      exact absurd (hall 0 w hw) (h2 hc 0 w hw)
  | close hc =>
    refine ⟨h1, ?_, h3, ?_⟩
    · intro hc'
      simp at hc'
    · intro hall
      obtain ⟨w, hw⟩ := exists_first_worker s.workers h3
      exact absurd (hall 0 w hw) (h2 hc 0 w hw)
  | acquire i hidle hnol =>
    obtain ⟨hlt, -⟩ := List.getElem?_eq_some_iff.mp hidle
    refine ⟨?_, ?_, ?_, ?_⟩
    · show (↑s.executed + ↑(runningJobs (s.workers.set i .locked)) + ↑s.queue
          : Multiset Nat) = ↑s.submitted
      have hr := runningJobs_set s.workers i .idle .locked hidle
      simp only [wjob, Option.toList, Multiset.coe_nil, add_zero] at hr
      rw [hr]
      exact h1
    · intro hc k w hkw
      by_cases hki : k = i
      · subst hki
        rw [List.getElem?_set_self hlt] at hkw
        obtain rfl : WStatus.locked = w := by simpa using hkw
        simp
      · rw [List.getElem?_set_ne (by omega)] at hkw
        exact h2 hc k w hkw
    · simpa using h3
    · intro hall
      have := hall i .locked (List.getElem?_set_self hlt)
      simp at this
  | dequeue i j rest hlk hq =>
    obtain ⟨hlt, -⟩ := List.getElem?_eq_some_iff.mp hlk
    refine ⟨?_, ?_, ?_, ?_⟩
    · show (↑s.executed + ↑(runningJobs (s.workers.set i (.running j))) + ↑rest
          : Multiset Nat) = ↑s.submitted
      have hr := runningJobs_set s.workers i .locked (.running j) hlk
      simp only [wjob, Option.toList, Multiset.coe_nil, add_zero,
        Multiset.coe_singleton] at hr
      rw [← h1, hq, hr]
      simp only [← Multiset.cons_coe, ← Multiset.singleton_add]
      abel
    · intro hc k w hkw
      by_cases hki : k = i
      · subst hki
        rw [List.getElem?_set_self hlt] at hkw
        obtain rfl : WStatus.running j = w := by simpa using hkw
        simp
      · rw [List.getElem?_set_ne (by omega)] at hkw
        exact h2 hc k w hkw
    · simpa using h3
    · intro hall
      have := hall i (.running j) (List.getElem?_set_self hlt)
      simp at this
  | recvErr i hlk hq hc =>
    obtain ⟨hlt, -⟩ := List.getElem?_eq_some_iff.mp hlk
    refine ⟨?_, ?_, ?_, ?_⟩
    · show (↑s.executed + ↑(runningJobs (s.workers.set i .stopped)) + ↑s.queue
          : Multiset Nat) = ↑s.submitted
      have hr := runningJobs_set s.workers i .locked .stopped hlk
      simp only [wjob, Option.toList, Multiset.coe_nil, add_zero] at hr
      rw [hr]
      exact h1
    · intro hc'
      simp only at hc'
      rw [hc] at hc'
      simp at hc'
    · simpa using h3
    · intro _
      exact hq
  | finish i j hrun =>
    obtain ⟨hlt, -⟩ := List.getElem?_eq_some_iff.mp hrun
    refine ⟨?_, ?_, ?_, ?_⟩
    · show (↑(s.executed ++ [j]) + ↑(runningJobs (s.workers.set i .idle))
          + ↑s.queue : Multiset Nat) = ↑s.submitted
      have hr := runningJobs_set s.workers i (.running j) .idle hrun
      simp only [wjob, Option.toList, Multiset.coe_nil, add_zero,
        Multiset.coe_singleton] at hr
      rw [← h1, ← hr]
      simp only [← Multiset.coe_add, Multiset.coe_singleton]
      abel
    · intro hc k w hkw
      by_cases hki : k = i
      · subst hki
        rw [List.getElem?_set_self hlt] at hkw
        obtain rfl : WStatus.idle = w := by simpa using hkw
        simp
      · rw [List.getElem?_set_ne (by omega)] at hkw
        exact h2 hc k w hkw
    · simpa using h3
    · intro hall
      have := hall i .idle (List.getElem?_set_self hlt)
      simp at this

/-- The freshly built pool satisfies the invariant. -/
theorem initState_inv (size : Nat) (h : 1 ≤ size) : PoolInv (initState size) := by
  refine ⟨?_, ?_, ?_, ?_⟩
  · simp [initState, runningJobs, wjob]
  · intro _ i w hw
    have hmem : w ∈ List.replicate size WStatus.idle := List.getElem?_mem hw
    rw [List.eq_of_mem_replicate hmem]
    simp
  · intro hn
    have := congrArg List.length hn
    simp [initState] at this
    omega
  · intro _
    rfl

/-- The invariant holds in every state reachable from a freshly built
pool's state. -/
theorem reach_inv {s t : SysState} (h : Reach s t) (hs : PoolInv s) :
    PoolInv t := by
  induction h with
  | refl => exact hs
  | tail _ hstep ih => exact step_preserves_inv hstep ih

/-- If every worker has stopped, no job is being executed. -/
theorem runningJobs_nil_of_all_stopped (ws : List WStatus)
    (h : ∀ (i : Nat) (w : WStatus), ws[i]? = some w → w = WStatus.stopped) :
    runningJobs ws = [] := by
  rw [runningJobs, List.filterMap_eq_nil_iff]
  intro a ha
  obtain ⟨i, hi, hget⟩ := List.getElem_of_mem ha
  have := h i a (by rw [List.getElem?_eq_getElem hi]; rw [hget])
  rw [this]
  rfl

/-- C1: from the state of a freshly built pool of any positive size, along
any interleaving of job submissions, the sender drop, and worker-loop
transitions (with no job panicking), once destruction has completed —
sender dropped and every worker thread terminated, which is what the joins
of `Drop` wait for — the executed jobs are a permutation of the submitted
jobs: every submitted job ran exactly once, none lost, none duplicated
(lib.rs lines 60–72 and 80–101). -/
theorem jobs_executed_exactly_once (size : Nat) (s : SysState)
    (hsize : 1 ≤ size) (hreach : Reach (initState size) s)
    (_hclosed : s.closed = true)
    (hstopped : ∀ (i : Nat) (w : WStatus), s.workers[i]? = some w →
      w = WStatus.stopped) :
    s.executed.Perm s.submitted ∧
    ∀ j, s.executed.count j = s.submitted.count j := by
  have hinv := reach_inv hreach (initState_inv size hsize)
  obtain ⟨h1, -, -, h4⟩ := hinv
  have hq : s.queue = [] := h4 hstopped
  have hr : runningJobs s.workers = [] :=
    runningJobs_nil_of_all_stopped s.workers hstopped
  rw [hq, hr] at h1
  simp only [Multiset.coe_nil, add_zero] at h1
  have hperm : s.executed.Perm s.submitted := Multiset.coe_eq_coe.mp h1
  exact ⟨hperm, fun j => hperm.count_eq j⟩

/-- Witness for C1: one worker, one job (`5`), run through a full concrete
lifecycle — submit, drop the sender, dequeue, execute, observe the closed
empty channel, stop. -/
theorem jobs_executed_exactly_once_witness :
    1 ≤ 1 ∧
    (SysState.mk [] true [WStatus.stopped] [5] [5]).executed.Perm
      (SysState.mk [] true [WStatus.stopped] [5] [5]).submitted ∧
    ∀ j, (SysState.mk [] true [WStatus.stopped] [5] [5]).executed.count j =
      (SysState.mk [] true [WStatus.stopped] [5] [5]).submitted.count j := by
  have r1 : Reach (initState 1) (SysState.mk [5] false [WStatus.idle] [] [5]) :=
    Relation.ReflTransGen.tail .refl (Step.submit (initState 1) 5 rfl)
  have r2 : Reach (initState 1) (SysState.mk [5] true [WStatus.idle] [] [5]) :=
    r1.tail (Step.close _ rfl)
  have r3 : Reach (initState 1) (SysState.mk [5] true [WStatus.locked] [] [5]) :=
    r2.tail (Step.acquire _ 0 rfl (by decide))
  have r4 : Reach (initState 1)
      (SysState.mk [] true [WStatus.running 5] [] [5]) :=
    r3.tail (Step.dequeue _ 0 5 [] rfl rfl)
  have r5 : Reach (initState 1) (SysState.mk [] true [WStatus.idle] [5] [5]) :=
    r4.tail (Step.finish _ 0 5 rfl)
  have r6 : Reach (initState 1) (SysState.mk [] true [WStatus.locked] [5] [5]) :=
    r5.tail (Step.acquire _ 0 rfl (by decide))
  have r7 : Reach (initState 1) (SysState.mk [] true [WStatus.stopped] [5] [5]) :=
    r6.tail (Step.recvErr _ 0 rfl rfl rfl)
  refine ⟨le_refl 1, ?_⟩
  refine jobs_executed_exactly_once 1 _ (le_refl 1) r7 rfl ?_
  intro i w hw
  cases i with
  | zero =>
    have : WStatus.stopped = w := by simpa using hw
    exact this.symm
  | succ n => simp at hw

/-- At most one worker holds the mutex on the shared receiver. -/
def lockedAtMostOne (ws : List WStatus) : Prop :=
  ∀ (i k : Nat), ws[i]? = some WStatus.locked → ws[k]? = some WStatus.locked →
    i = k

/-- Each transition preserves mutual exclusion on the receiver: `lock()`
succeeds only when no other worker holds the guard, and the guard is
relinquished exactly when the worker leaves the dequeue attempt
(lib.rs line 82). -/
theorem step_preserves_lockedAtMostOne {s t : SysState} (hst : Step s t)
    (h : lockedAtMostOne s.workers) : lockedAtMostOne t.workers := by
  cases hst with
  | submit j hc => exact h
  | close hc => exact h
  | acquire i hidle hnol =>
    intro a b ha hb
    by_cases hai : a = i
    · by_cases hbi : b = i
      · omega
      · rw [List.getElem?_set_ne (by omega)] at hb
        exact absurd (List.getElem?_mem hb) (by simpa using hnol WStatus.locked)
    · rw [List.getElem?_set_ne (by omega)] at ha
      exact absurd (List.getElem?_mem ha) (by simpa using hnol WStatus.locked)
  | dequeue i j rest hlk hq =>
    obtain ⟨hlt, -⟩ := List.getElem?_eq_some_iff.mp hlk
    intro a b ha hb
    by_cases hai : a = i
    · subst hai
      rw [List.getElem?_set_self hlt] at ha
      simp at ha
    · by_cases hbi : b = i
      · subst hbi
        rw [List.getElem?_set_self hlt] at hb
        simp at hb
      · rw [List.getElem?_set_ne (by omega)] at ha
        rw [List.getElem?_set_ne (by omega)] at hb
        exact h a b ha hb
  | recvErr i hlk hq hc =>
    obtain ⟨hlt, -⟩ := List.getElem?_eq_some_iff.mp hlk
    intro a b ha hb
    by_cases hai : a = i
    · subst hai
      rw [List.getElem?_set_self hlt] at ha
      simp at ha
    · by_cases hbi : b = i
      · subst hbi
        rw [List.getElem?_set_self hlt] at hb
        simp at hb
      · rw [List.getElem?_set_ne (by omega)] at ha
        rw [List.getElem?_set_ne (by omega)] at hb
        exact h a b ha hb
  | finish i j hrun =>
    obtain ⟨hlt, -⟩ := List.getElem?_eq_some_iff.mp hrun
    intro a b ha hb
    by_cases hai : a = i
    · subst hai
      rw [List.getElem?_set_self hlt] at ha
      simp at ha
    · by_cases hbi : b = i
      · subst hbi
        rw [List.getElem?_set_self hlt] at hb
        simp at hb
      · rw [List.getElem?_set_ne (by omega)] at ha
        rw [List.getElem?_set_ne (by omega)] at hb
        exact h a b ha hb

/-- C7: the receiver lock is held only for the duration of one dequeue
attempt and is released before the dequeued job runs (the `MutexGuard` of
`reciever.lock().unwrap().recv()` dies at the end of lib.rs line 82, before
`job()` on line 88). Consequently several workers can execute jobs in
parallel: from a fresh two-worker pool a state is reachable in which both
workers are simultaneously running their jobs (with neither holding the
lock and neither job finished); and along every reachable state mutual
exclusion holds — at most one worker at a time holds the receiver lock. -/
theorem lock_released_before_job_runs :
    (∃ s : SysState, Reach (initState 2) s ∧
      s.workers = [WStatus.running 5, WStatus.running 7] ∧
      s.executed = []) ∧
    (∀ (size : Nat) (t : SysState), Reach (initState size) t →
      lockedAtMostOne t.workers) := by
  constructor
  · have r1 : Reach (initState 2)
        (SysState.mk [5] false [WStatus.idle, WStatus.idle] [] [5]) :=
      Relation.ReflTransGen.tail .refl (Step.submit (initState 2) 5 rfl)
    have r2 : Reach (initState 2)
        (SysState.mk [5, 7] false [WStatus.idle, WStatus.idle] [] [5, 7]) :=
      r1.tail (Step.submit _ 7 rfl)
    have r3 : Reach (initState 2)
        (SysState.mk [5, 7] false [WStatus.locked, WStatus.idle] [] [5, 7]) :=
      r2.tail (Step.acquire _ 0 rfl (by decide))
    have r4 : Reach (initState 2)
        (SysState.mk [7] false [WStatus.running 5, WStatus.idle] [] [5, 7]) :=
      r3.tail (Step.dequeue _ 0 5 [7] rfl rfl)
    have r5 : Reach (initState 2)
        (SysState.mk [7] false [WStatus.running 5, WStatus.locked] [] [5, 7]) :=
      r4.tail (Step.acquire _ 1 rfl (by decide))
    have r6 : Reach (initState 2)
        (SysState.mk [] false [WStatus.running 5, WStatus.running 7] [] [5, 7]) :=
      r5.tail (Step.dequeue _ 1 7 [] rfl rfl)
    exact ⟨_, r6, rfl, rfl⟩
  · intro size t hreach
    induction hreach with
    | refl =>
      intro a b ha hb
      have := List.eq_of_mem_replicate (List.getElem?_mem ha)
      simp at this
    | tail _ hstep ih => exact step_preserves_lockedAtMostOne hstep ih
